import Mathlib

/-!
Verification of the range-serving logic of `src/main.rs` (a small video
server).  The handlers `serve_video` and `serve_frame` are embedded as pure
Lean functions; Rust `u64` arithmetic is modelled as `Nat` with explicit
wrap-around modulo `2 ^ 64` (release-profile wrapping semantics), panicking
operations (out-of-bounds string slicing, `unwrap` on a failed
`read_exact`) are modelled with `Except`.
-/

namespace Ninja

/-- The modulus of Rust `u64` arithmetic, `2 ^ 64`, written as a literal so
that `omega` can work with it directly. -/
def W : Nat := 18446744073709551616

theorem W_eq : W = 2 ^ 64 := by norm_num [W]

/-- Rust release-profile wrapping subtraction on `u64`. -/
def sub64 (a b : Nat) : Nat := (a + (W - b % W)) % W

/-- Rust release-profile wrapping addition on `u64`. -/
def add64 (a b : Nat) : Nat := (a + b) % W

theorem sub64_eq (a b : Nat) (hb : b ≤ a) (ha : a < W) : sub64 a b = a - b := by
  unfold sub64 W at *
  omega

theorem add64_eq (a b : Nat) (h : a + b < W) : add64 a b = a + b := by
  unfold add64 W at *
  omega

theorem sub64_lt (a b : Nat) : sub64 a b < W := by
  unfold sub64 W
  omega

/-- A decimal digit character, as Rust's `u64` `Display` implementation
emits them. -/
def decDigit (d : Nat) : Char := Char.ofNat (48 + d)

/-- Decimal formatting of a `u64` (Rust `format!("{n}")`), written with
explicit fuel so that the recursion is structural; `toDecimal` supplies
sufficient fuel. -/
def toDecimalAux : Nat → Nat → List Char
  | 0, _ => []
  | fuel + 1, n =>
    if n < 10 then [decDigit n]
    else toDecimalAux fuel (n / 10) ++ [decDigit (n % 10)]

/-- Decimal formatting of a `u64` (Rust `format!("{n}")`). -/
def toDecimal (n : Nat) : List Char := toDecimalAux (n + 1) n

/-- String form of `toDecimal`, used when building header values. -/
def decStr (n : Nat) : String := ⟨toDecimal n⟩

/-- Numeric value of a decimal digit character, `none` for non-digits. -/
def digitVal (c : Char) : Option Nat :=
  if 48 ≤ c.toNat ∧ c.toNat ≤ 57 then some (c.toNat - 48) else none

/-- Accumulating decimal parser over a character list. -/
def parseDigitsAux : List Char → Nat → Option Nat
  | [], acc => some acc
  | c :: cs, acc =>
    match digitVal c with
    | some d => parseDigitsAux cs (acc * 10 + d)
    | none => none

/-- Drop the optional leading `+` sign that Rust's unsigned-integer
parser accepts. -/
def stripPlus : List Char → List Char
  | [] => []
  | c :: rest => if c = '+' then rest else c :: rest

/-- Rust `str::parse::<u64>`: an optional leading `+`, then one or more
decimal digits, whose value must fit in a `u64`. -/
def parseU64 (s : List Char) : Option Nat :=
  match stripPlus s with
  | [] => none
  | c :: cs =>
    match parseDigitsAux (c :: cs) 0 with
    | some n => if n < W then some n else none
    | none => none

/-- Rust `str::split_once`: split at the first occurrence of `sep`;
`none` when `sep` does not occur. -/
def splitOnce (sep : Char) : List Char → Option (List Char × List Char)
  | [] => none
  | c :: cs =>
    if c = sep then some ([], cs)
    else
      match splitOnce sep cs with
      | some (a, b) => some (c :: a, b)
      | none => none

/-- The value of an HTTP header as seen through `HeaderValue::to_str`:
either a visible-ASCII string, or an invalid byte sequence for which
`to_str` fails and `serve_video`'s `unwrap_or("")` substitutes the empty
string. -/
inductive HeaderVal where
  | invalid
  | str (s : List Char)
deriving DecidableEq

/-- The string `serve_video` works on: `to_str().unwrap_or("")`. -/
def HeaderVal.toStrOr : HeaderVal → List Char
  | .invalid => []
  | .str s => s

/-- An HTTP response body: raw bytes or a plain-text message. -/
inductive RespBody where
  | bytes (data : List Nat)
  | text (s : String)
deriving DecidableEq

/-- A wire-level HTTP response: status code, headers, body. -/
structure Response where
  status : Nat
  headers : List (String × String)
  body : RespBody
deriving DecidableEq

/-- A panic of the serving task: an out-of-bounds string slice
(`&s[..i]` with `i` past the end), or an `unwrap()` on a failed
`read_exact`. -/
inductive ServePanic where
  | sliceOutOfBounds
  | readFailed
deriving DecidableEq

/-- The `range` local of `serve_video` (src/main.rs line 109): the part of
the header value after the `bytes=` marker, or the empty string when the
header does not start with `bytes=`. -/
def rangeOfHeader (headerStr : List Char) : List Char :=
  if headerStr.take 6 = "bytes=".data then headerStr.drop 6 else []

/-- The `start` local of `serve_video`'s explicit-form branch (src/main.rs
lines 115-116): `split_once('-')` with `("", "")` fallback, then the first
token parsed as `u64` with default `0`. -/
def explicitStart (range : List Char) : Nat :=
  (parseU64 ((splitOnce '-' range).getD ([], [])).1).getD 0

/-- The `end` local of `serve_video`'s explicit-form branch (src/main.rs
line 117): the second token parsed as `u64`, defaulting to
`min(start + chunk_size, size) - 1` in wrapping `u64` arithmetic. -/
def explicitEnd (range : List Char) (size chunk : Nat) : Nat :=
  (parseU64 ((splitOnce '-' range).getD ([], [])).2).getD
    (sub64 (min (add64 (explicitStart range) chunk) size) 1)

/-- The suffix-form branch of `serve_video` (src/main.rs lines 110-113):
`bytes=-N` means the last `N` bytes, `(size - last, size - 1)` in wrapping
`u64` arithmetic. -/
def suffixPair (range : List Char) (size : Nat) : Nat × Nat :=
  (sub64 size ((parseU64 (range.drop 1)).getD 0), sub64 size 1)

/-- The Range-header processing block of `serve_video` (src/main.rs lines
107-118): `&header_str[..6]` panics when the header is shorter than 6
bytes; a header not starting with `bytes=` falls back to the empty string,
on which `&range[..1]` panics; otherwise the suffix or explicit branch
computes the candidate `(start, end)` pair. -/
def parseRangePair (headerStr : List Char) (size chunk : Nat) :
    Except ServePanic (Nat × Nat) :=
  if headerStr.length < 6 then .error .sliceOutOfBounds
  else if (rangeOfHeader headerStr).length < 1 then .error .sliceOutOfBounds
  else if (rangeOfHeader headerStr).take 1 = ['-'] then
    .ok (suffixPair (rangeOfHeader headerStr) size)
  else
    .ok (explicitStart (rangeOfHeader headerStr),
      explicitEnd (rangeOfHeader headerStr) size chunk)

/-- Embedding of `serve_video` (src/main.rs lines 88-152).  `file` is
`none` when `File::open` fails, otherwise the file's bytes; `size` is the
seek-to-end result; the partial-content read of `range_size` bytes at
offset `start` succeeds exactly when the file holds that many bytes, and a
failure is the `unwrap()` panic `ServePanic.readFailed`. -/
def serve_video (file : Option (List Nat)) (rangeHeader : Option HeaderVal)
    (chunk : Nat) : Except ServePanic Response :=
  match file with
  | none => .ok ⟨404, [], .text "Video not found"⟩
  | some data =>
    match rangeHeader with
    | none => .ok ⟨200, [("Accept-Ranges", "bytes")], .bytes data⟩
    | some hv =>
      match parseRangePair hv.toStrOr data.length chunk with
      | .error p => .error p
      | .ok (start, e) =>
        if e ≥ data.length then .ok ⟨416, [], .text "Range Not Satisfiable"⟩
        else if start + sub64 (add64 e 1) start ≤ data.length then
          .ok ⟨206,
            [("Content-Range",
               "bytes " ++ decStr start ++ "-" ++ decStr e ++ "/" ++
                 decStr data.length),
             ("Accept-Ranges", "bytes"),
             ("Content-Type", "video/mp4")],
            .bytes ((data.drop start).take (sub64 (add64 e 1) start))⟩
        else .error .readFailed

/-- Embedding of `serve_frame` (src/main.rs lines 154-189).  `fileExists`
is whether `fs::try_exists` returned `Ok(true)`; `extraction` is the
result of the external command invocation: `Err` when spawning the command
fails, `Ok stdout` otherwise (the exit status is never inspected).  The
timestamp `t` is forwarded to the external command and does not influence
the response shape. -/
def serve_frame (fileExists : Bool) (_t : Nat)
    (extraction : Except Unit (List Nat)) : Response :=
  if fileExists then
    match extraction with
    | .ok stdout => ⟨200, [("Content-Type", "image/jpeg")], .bytes stdout⟩
    | .error _ => ⟨500, [], .text "Failed to extract frame"⟩
  else ⟨404, [], .text "Video not found"⟩

/-! ## Helper lemmas about the decimal formatter and parser -/

theorem digitVal_decDigit (d : Nat) (h : d < 10) : digitVal (decDigit d) = some d := by
  interval_cases d <;> decide

theorem decDigit_toNat_bounds (d : Nat) (h : d < 10) :
    48 ≤ (decDigit d).toNat ∧ (decDigit d).toNat ≤ 57 := by
  interval_cases d <;> decide

theorem toDecimalAux_digits : ∀ (fuel n : Nat), ∀ c ∈ toDecimalAux fuel n,
    48 ≤ c.toNat ∧ c.toNat ≤ 57
  | 0, _ => by simp [toDecimalAux]
  | fuel + 1, n => by
    intro c hc
    rw [toDecimalAux] at hc
    by_cases hn : n < 10
    · simp only [if_pos hn, List.mem_singleton] at hc
      exact hc ▸ decDigit_toNat_bounds n hn
    · simp only [if_neg hn, List.mem_append, List.mem_singleton] at hc
      rcases hc with hc | hc
      · exact toDecimalAux_digits fuel (n / 10) c hc
      · exact hc ▸ decDigit_toNat_bounds (n % 10) (Nat.mod_lt _ (by omega))

theorem toDecimal_digits (n : Nat) : ∀ c ∈ toDecimal n, 48 ≤ c.toNat ∧ c.toNat ≤ 57 :=
  toDecimalAux_digits (n + 1) n

theorem toDecimalAux_ne_nil (fuel n : Nat) (h : n < fuel) : toDecimalAux fuel n ≠ [] := by
  match fuel with
  | 0 => omega
  | fuel + 1 =>
    rw [toDecimalAux]
    by_cases hn : n < 10 <;> simp [hn]

theorem toDecimal_ne_nil (n : Nat) : toDecimal n ≠ [] :=
  toDecimalAux_ne_nil (n + 1) n (Nat.lt_succ_self n)

theorem dash_not_mem_toDecimal (n : Nat) : '-' ∉ toDecimal n := by
  intro h
  have hb := toDecimal_digits n _ h
  have h45 : ('-' : Char).toNat = 45 := rfl
  omega

theorem parseDigitsAux_append (xs ys : List Char) (acc : Nat) :
    parseDigitsAux (xs ++ ys) acc =
      (parseDigitsAux xs acc).bind (fun m => parseDigitsAux ys m) := by
  induction xs generalizing acc with
  | nil => rfl
  | cons c cs ih =>
    rw [List.cons_append, parseDigitsAux, parseDigitsAux]
    cases digitVal c with
    | some d => exact ih _
    | none => rfl

theorem parseDigitsAux_toDecimalAux : ∀ (fuel n acc : Nat), n < fuel →
    parseDigitsAux (toDecimalAux fuel n) acc =
      some (acc * 10 ^ (toDecimalAux fuel n).length + n)
  | 0, n, _, h => absurd h (Nat.not_lt_zero n)
  | fuel + 1, n, acc, h => by
    rw [toDecimalAux]
    by_cases hn : n < 10
    · rw [if_pos hn]
      simp [parseDigitsAux, digitVal_decDigit n hn]
    · rw [if_neg hn]
      have hdiv : n / 10 < fuel := by omega
      rw [parseDigitsAux_append, parseDigitsAux_toDecimalAux fuel (n / 10) acc hdiv]
      rw [Option.some_bind]
      simp only [parseDigitsAux, digitVal_decDigit (n % 10) (Nat.mod_lt _ (by omega))]
      congr 1
      rw [List.length_append, List.length_singleton, pow_succ, Nat.add_mul, ← Nat.mul_assoc]
      omega

theorem parseU64_toDecimal (n : Nat) (h : n < W) : parseU64 (toDecimal n) = some n := by
  obtain ⟨c, cs, hc⟩ := List.exists_cons_of_ne_nil (toDecimal_ne_nil n)
  have hd := toDecimal_digits n c (hc ▸ List.mem_cons_self c cs)
  have hplus : ¬ c = '+' := by
    intro hq
    rw [hq] at hd
    have h43 : ('+' : Char).toNat = 43 := rfl
    omega
  have hstrip : stripPlus (toDecimal n) = c :: cs := by
    rw [hc, stripPlus, if_neg hplus]
  have hparse : parseDigitsAux (c :: cs) 0 = some n := by
    rw [← hc]
    have := parseDigitsAux_toDecimalAux (n + 1) n 0 (Nat.lt_succ_self n)
    simpa [toDecimal] using this
  rw [parseU64, hstrip]
  simp [hparse, h]

theorem splitOnce_append (sep : Char) (a b : List Char) (h : sep ∉ a) :
    splitOnce sep (a ++ sep :: b) = some (a, b) := by
  induction a with
  | nil => simp [splitOnce]
  | cons c cs ih =>
    have hc : ¬ c = sep := fun hcs => h (hcs ▸ List.mem_cons_self c cs)
    have hcs : sep ∉ cs := fun hm => h (List.mem_cons_of_mem c hm)
    rw [List.cons_append, splitOnce, if_neg hc, ih hcs]

theorem bytesLit_data : "bytes=".data = ['b', 'y', 't', 'e', 's', '='] := rfl

theorem take6_bytesData (r : List Char) : ("bytes=".data ++ r).take 6 = "bytes=".data := rfl

theorem drop6_bytesData (r : List Char) : ("bytes=".data ++ r).drop 6 = r := rfl

theorem length_bytesData_append (r : List Char) :
    ("bytes=".data ++ r).length = 6 + r.length := by
  rw [bytesLit_data]
  simp
  omega

theorem parseU64_lt (s : List Char) (n : Nat) (h : parseU64 s = some n) : n < W := by
  rw [parseU64] at h
  split at h
  · exact absurd h (by simp)
  · split at h
    · split at h
      · injection h with h'
        omega
      · exact absurd h (by simp)
    · exact absurd h (by simp)

theorem W_pos : 0 < W := by norm_num [W]

theorem parseU64_getD_lt (s : List Char) (d : Nat) (hd : d < W) :
    (parseU64 s).getD d < W := by
  cases hq : parseU64 s with
  | none => simpa using hd
  | some n => simpa using parseU64_lt s n hq

theorem rangeOfHeader_bytesData (r : List Char) :
    rangeOfHeader ("bytes=".data ++ r) = r := by
  rw [rangeOfHeader, take6_bytesData, if_pos rfl, drop6_bytesData]

/-- Reduction of `parseRangePair` on a well-formed suffix header
`bytes=-tok`. -/
theorem parseRangePair_suffixForm (tok : List Char) (S C : Nat) :
    parseRangePair ("bytes=".data ++ '-' :: tok) S C =
      .ok (sub64 S ((parseU64 tok).getD 0), sub64 S 1) := by
  rw [parseRangePair, if_neg (by rw [length_bytesData_append]; omega),
    rangeOfHeader_bytesData, if_neg (by simp), if_pos (by simp)]
  rfl

/-- Reduction of `parseRangePair` on an explicit-form header
`bytes=sTok-eTok` whose start token is nonempty and free of dashes (it
need not be parsable: an unparsable start token defaults to `0` inside
`explicitStart`). -/
theorem parseRangePair_explicitForm (sTok eTok : List Char) (S C : Nat)
    (hne : sTok ≠ []) (hdash : '-' ∉ sTok) :
    parseRangePair ("bytes=".data ++ (sTok ++ '-' :: eTok)) S C =
      .ok ((parseU64 sTok).getD 0,
        (parseU64 eTok).getD
          (sub64 (min (add64 ((parseU64 sTok).getD 0) C) S) 1)) := by
  obtain ⟨c, cs, hc⟩ := List.exists_cons_of_ne_nil hne
  have hcdash : ¬ c = '-' := by
    intro hq
    apply hdash
    rw [hc, hq]
    exact List.mem_cons_self _ _
  have hsplit : splitOnce '-' (sTok ++ '-' :: eTok) = some (sTok, eTok) :=
    splitOnce_append '-' sTok eTok hdash
  rw [parseRangePair, if_neg (by rw [length_bytesData_append]; omega),
    rangeOfHeader_bytesData, if_neg (by simp [hc]),
    if_neg (by rw [hc]; simp [hcdash]),
    explicitStart, explicitEnd, explicitStart, hsplit]
  rfl

theorem parseRangePair_ok_start_lt (h : List Char) (S C st e : Nat)
    (hp : parseRangePair h S C = .ok (st, e)) : st < W := by
  rw [parseRangePair] at hp
  split at hp
  · exact absurd hp (by simp)
  split at hp
  · exact absurd hp (by simp)
  split at hp
  · rw [suffixPair, Except.ok.injEq, Prod.mk.injEq] at hp
    exact hp.1 ▸ sub64_lt _ _
  · rw [Except.ok.injEq, Prod.mk.injEq, explicitStart] at hp
    exact hp.1 ▸ parseU64_getD_lt _ 0 W_pos

theorem sub64_eq_wrap (a b : Nat) (hab : a < b) (hb : b < W) :
    sub64 a b = a + W - b := by
  unfold sub64 W at *
  omega

/-- Reduction of `serve_video` once the parse of a string Range header is
known. -/
theorem serve_video_str_parse_ok (data : List Nat) (s : List Char)
    (chunk st e : Nat) (hp : parseRangePair s data.length chunk = .ok (st, e)) :
    serve_video (some data) (some (.str s)) chunk =
      if e ≥ data.length then .ok ⟨416, [], .text "Range Not Satisfiable"⟩
      else if st + sub64 (add64 e 1) st ≤ data.length then
        .ok ⟨206,
          [("Content-Range",
             "bytes " ++ decStr st ++ "-" ++ decStr e ++ "/" ++ decStr data.length),
           ("Accept-Ranges", "bytes"),
           ("Content-Type", "video/mp4")],
          .bytes ((data.drop st).take (sub64 (add64 e 1) st))⟩
      else .error .readFailed := by
  simp only [serve_video, HeaderVal.toStrOr, hp]

/-! ## The claims -/

/-- C1: for every resource and all `start ≤ end < size` (with the `u64`
size bound), a request with header `Range: bytes=start-end` yields status
206 with header `Content-Range: bytes start-end/size` and a body of
exactly `end - start + 1` bytes equal to the resource's bytes at offsets
`start` through `end`. -/
theorem serve_video_explicit_range_206 (data : List Nat) (chunk start e : Nat)
    (hse : start ≤ e) (heS : e < data.length) (hW : data.length < W) :
    serve_video (some data)
        (some (.str ("bytes=".data ++ (toDecimal start ++ '-' :: toDecimal e))))
        chunk =
      .ok ⟨206,
        [("Content-Range",
           "bytes " ++ decStr start ++ "-" ++ decStr e ++ "/" ++
             decStr data.length),
         ("Accept-Ranges", "bytes"),
         ("Content-Type", "video/mp4")],
        .bytes ((data.drop start).take (e + 1 - start))⟩ ∧
      ((data.drop start).take (e + 1 - start)).length = e - start + 1 ∧
      ∀ i, i < e - start + 1 →
        ((data.drop start).take (e + 1 - start))[i]? = data[start + i]? := by
  have hsW : start < W := by omega
  have heW : e < W := by omega
  have hp0 := parseRangePair_explicitForm (toDecimal start) (toDecimal e)
    data.length chunk (toDecimal_ne_nil start) (dash_not_mem_toDecimal start)
  rw [parseU64_toDecimal start hsW, parseU64_toDecimal e heW,
    Option.getD_some, Option.getD_some] at hp0
  have hrs : sub64 (add64 e 1) start = e + 1 - start := by
    rw [add64_eq e 1 (by omega), sub64_eq (e + 1) start (by omega) (by omega)]
  refine ⟨?_, ?_, ?_⟩
  · rw [serve_video_str_parse_ok data _ chunk start e hp0, if_neg (by omega),
      hrs, if_pos (by omega)]
  · rw [List.length_take, List.length_drop]
    omega
  · intro i hi
    rw [List.getElem?_take_of_lt (by omega), List.getElem?_drop]

/-- C1 witness: the theorem at resource `[10, 20, 30, 40]`,
`Range: bytes=1-2`. -/
theorem serve_video_explicit_range_206_witness :
    (1 : Nat) ≤ 2 ∧ (2 : Nat) < ([10, 20, 30, 40] : List Nat).length ∧
    ([10, 20, 30, 40] : List Nat).length < W ∧
    serve_video (some [10, 20, 30, 40])
        (some (.str ("bytes=".data ++ (toDecimal 1 ++ '-' :: toDecimal 2)))) 65536 =
      .ok ⟨206,
        [("Content-Range", "bytes 1-2/4"), ("Accept-Ranges", "bytes"),
         ("Content-Type", "video/mp4")],
        .bytes [20, 30]⟩ :=
  ⟨by decide, by decide, by decide,
    (serve_video_explicit_range_206 [10, 20, 30, 40] 65536 1 2 (by decide)
      (by decide) (by decide)).1⟩

/-- C2 (code bug): a present Range header that does not begin with
`bytes=` does not fall back to the full-body 200 path; the handler panics
on an out-of-bounds string slice.  Evaluations at a short header value, at
a non-string header value (`to_str` fails, substituting `""`), and at a
6-byte-or-longer value with the wrong marker. -/
theorem serve_video_non_bytes_header_panics :
    serve_video (some [0, 1, 2]) (some (.str "x".data)) 65536 =
        .error .sliceOutOfBounds ∧
    serve_video (some [0, 1, 2]) (some .invalid) 65536 =
        .error .sliceOutOfBounds ∧
    serve_video (some [0, 1, 2]) (some (.str "items=0-5".data)) 65536 =
        .error .sliceOutOfBounds :=
  ⟨rfl, rfl, rfl⟩

/-- C3 counterexample: `Range: bytes=-0` on a 5-byte resource is delivered
as a 206 partial body with candidate range `(5, 4)`, whose `start ≤ end`
fails. -/
theorem byteRange_invariant_counterexample :
    parseRangePair "bytes=-0".data 5 65536 = .ok (5, 4) ∧
    serve_video (some [0, 1, 2, 3, 4]) (some (.str "bytes=-0".data)) 65536 =
      .ok ⟨206,
        [("Content-Range", "bytes 5-4/5"), ("Accept-Ranges", "bytes"),
         ("Content-Type", "video/mp4")],
        .bytes []⟩ ∧
    ¬ (5 : Nat) ≤ 4 :=
  ⟨rfl, rfl, by decide⟩

/-- C3 amended: every candidate range delivered as a 206 partial body
satisfies `start ≤ end + 1` and `end < size`, and the delivered body has
exactly `end + 1 - start` bytes (which is `end - start + 1` when
`start ≤ end`, and `0` in the degenerate `start = end + 1` case). -/
theorem byteRange_invariant_amended (data : List Nat) (hv : HeaderVal)
    (chunk st e : Nat) (resp : Response)
    (hW : data.length < W)
    (hp : parseRangePair hv.toStrOr data.length chunk = .ok (st, e))
    (hr : serve_video (some data) (some hv) chunk = .ok resp)
    (h206 : resp.status = 206) :
    st ≤ e + 1 ∧ e < data.length ∧
      ∃ body, resp.body = .bytes body ∧ body.length = e + 1 - st := by
  have hstW := parseRangePair_ok_start_lt hv.toStrOr data.length chunk st e hp
  simp only [serve_video, hp] at hr
  by_cases h1 : e ≥ data.length
  · rw [if_pos h1] at hr
    injection hr with hr'
    rw [← hr'] at h206
    simp at h206
  · rw [if_neg h1, add64_eq e 1 (by omega)] at hr
    by_cases h2 : st ≤ e + 1
    · rw [sub64_eq (e + 1) st h2 (by omega), if_pos (by omega)] at hr
      injection hr with hr'
      refine ⟨h2, by omega, (data.drop st).take (e + 1 - st), ?_, ?_⟩
      · rw [← hr']
      · rw [List.length_take, List.length_drop]
        omega
    · rw [sub64_eq_wrap (e + 1) st (by omega) (by omega),
        if_neg (by omega)] at hr
      simp at hr

/-- C3 amended witness: the theorem at resource `[0, 1, 2]`,
`Range: bytes=0-1`. -/
theorem byteRange_invariant_amended_witness :
    (0 : Nat) ≤ 1 + 1 ∧ (1 : Nat) < ([0, 1, 2] : List Nat).length ∧
      ∃ body,
        (Response.mk 206
          [("Content-Range", "bytes 0-1/3"), ("Accept-Ranges", "bytes"),
           ("Content-Type", "video/mp4")] (.bytes [0, 1])).body = .bytes body ∧
        body.length = 1 + 1 - 0 :=
  byteRange_invariant_amended [0, 1, 2] (.str "bytes=0-1".data) 65536 0 1
    ⟨206, [("Content-Range", "bytes 0-1/3"), ("Accept-Ranges", "bytes"),
           ("Content-Type", "video/mp4")], .bytes [0, 1]⟩
    (by decide) rfl rfl rfl

/-- C4: whenever the parsed candidate range has `end ≥ size` — however
`end` was derived — the response is 416 Range Not Satisfiable and no
partial body is produced. -/
theorem serve_video_end_past_size_416 (data : List Nat) (hv : HeaderVal)
    (chunk st e : Nat)
    (hp : parseRangePair hv.toStrOr data.length chunk = .ok (st, e))
    (he : data.length ≤ e) :
    serve_video (some data) (some hv) chunk =
      .ok ⟨416, [], .text "Range Not Satisfiable"⟩ := by
  simp only [serve_video, hp]
  rw [if_pos he]

/-- C4 witness: the theorem at resource `[1]`, `Range: bytes=0-5`. -/
theorem serve_video_end_past_size_416_witness :
    parseRangePair (HeaderVal.str "bytes=0-5".data).toStrOr
        ([1] : List Nat).length 4 = .ok (0, 5) ∧
    ([1] : List Nat).length ≤ 5 ∧
    serve_video (some [1]) (some (.str "bytes=0-5".data)) 4 =
      .ok ⟨416, [], .text "Range Not Satisfiable"⟩ :=
  ⟨rfl, by decide,
    serve_video_end_past_size_416 [1] (.str "bytes=0-5".data) 4 0 5 rfl (by decide)⟩

/-- C5: a suffix range header `bytes=-N` with `0 < N ≤ S` parses to the
candidate range `start = S - N`, `end = S - 1` (the last `N` bytes). -/
theorem parseRangePair_suffix_lastN (S N C : Nat) (h0 : 0 < N) (hNS : N ≤ S)
    (hS : S < W) :
    parseRangePair ("bytes=".data ++ '-' :: toDecimal N) S C =
      .ok (S - N, S - 1) := by
  rw [parseRangePair_suffixForm, parseU64_toDecimal N (by omega),
    Option.getD_some, sub64_eq S N hNS hS, sub64_eq S 1 (by omega) hS]

/-- C5 witness: `bytes=-100` on a 1000-byte resource parses to
`(900, 999)`. -/
theorem parseRangePair_suffix_lastN_witness :
    (0 : Nat) < 100 ∧ (100 : Nat) ≤ 1000 ∧ (1000 : Nat) < W ∧
    parseRangePair ("bytes=".data ++ '-' :: toDecimal 100) 1000 65536 =
      .ok (900, 999) :=
  ⟨by decide, by decide, by decide,
    parseRangePair_suffix_lastN 1000 100 65536 (by decide) (by decide) (by decide)⟩

/-- C6 counterexample: with `start = 2^64 - 1`, chunk size `2` and
`S = 3`, the header `bytes=18446744073709551615-` parses to `end = 0`
(because `start + chunk_size` wraps in `u64`), not to
`min(start + C, S) - 1 = 2` as the claim's formula states. -/
theorem parseRangePair_chunk_default_counterexample :
    parseRangePair "bytes=18446744073709551615-".data 3 2 =
      .ok (18446744073709551615, 0) ∧
    (0 : Nat) ≠ min (18446744073709551615 + 2) 3 - 1 :=
  ⟨rfl, by decide⟩

/-- C6 amended: for an explicit-form header `bytes=sTok-` or
`bytes=sTok-<unparsable>` — the start token `sTok` being any nonempty
dash-free token, parsed as an unsigned integer with default `0` if
unparsable — provided `start + C` is positive and does not overflow a
`u64` and the resource is nonempty, the parser sets `start` to
`(parseU64 sTok).getD 0` and `end` to `min(start + C, S) - 1`, which
never extends past the end of the file. -/
theorem parseRangePair_chunk_default (sTok eTok : List Char) (C S : Nat)
    (hsne : sTok ≠ []) (hsdash : '-' ∉ sTok)
    (hend : parseU64 eTok = none)
    (hpos : 0 < (parseU64 sTok).getD 0 + C)
    (hlt : (parseU64 sTok).getD 0 + C < W) (hS : 0 < S) :
    parseRangePair ("bytes=".data ++ (sTok ++ '-' :: eTok)) S C =
      .ok ((parseU64 sTok).getD 0, min ((parseU64 sTok).getD 0 + C) S - 1) ∧
      min ((parseU64 sTok).getD 0 + C) S - 1 < S := by
  constructor
  · rw [parseRangePair_explicitForm sTok eTok S C hsne hsdash, hend,
      Option.getD_none, add64_eq _ C hlt,
      sub64_eq (min ((parseU64 sTok).getD 0 + C) S) 1 (by omega) (by omega)]
  · omega

/-- C6 amended witness: `bytes=abc-` (unparsable start token, so `start`
defaults to 0) with chunk size 65536 on a 1000-byte resource parses to
`(0, 999)`. -/
theorem parseRangePair_chunk_default_witness :
    ("abc".data ≠ ([] : List Char)) ∧ ('-' ∉ "abc".data) ∧
    parseU64 ([] : List Char) = none ∧
    (0 : Nat) < (parseU64 "abc".data).getD 0 + 65536 ∧
    (parseU64 "abc".data).getD 0 + 65536 < W ∧ (0 : Nat) < 1000 ∧
    (parseRangePair ("bytes=".data ++ ("abc".data ++ '-' :: ([] : List Char)))
        1000 65536 =
      .ok ((parseU64 "abc".data).getD 0,
        min ((parseU64 "abc".data).getD 0 + 65536) 1000 - 1) ∧
      min ((parseU64 "abc".data).getD 0 + 65536) 1000 - 1 < 1000) :=
  ⟨by decide, by decide, rfl, by decide, by decide, by decide,
    parseRangePair_chunk_default "abc".data [] 65536 1000 (by decide) (by decide)
      rfl (by decide) (by decide) (by decide)⟩

/-- C7: a request with no Range header yields 200 with header
`Accept-Ranges: bytes` and the entire resource as body. -/
theorem serve_video_no_header_200 (data : List Nat) (chunk : Nat) :
    serve_video (some data) none chunk =
      .ok ⟨200, [("Accept-Ranges", "bytes")], .bytes data⟩ := rfl

/-- C8: a request for a resource that cannot be opened yields 404
regardless of the Range header (present, absent, well-formed or
malformed). -/
theorem serve_video_missing_404 (rangeHeader : Option HeaderVal) (chunk : Nat) :
    serve_video none rangeHeader chunk =
      .ok ⟨404, [], .text "Video not found"⟩ := rfl

/-- C9: for the frame endpoint, a missing resource yields 404 whatever the
extraction would do; a failing extractor invocation yields 500; a
successful invocation yields 200 with content type `image/jpeg` and the
produced bytes as body. -/
theorem serve_frame_status_contract (t : Nat) (ext : Except Unit (List Nat))
    (img : List Nat) :
    serve_frame false t ext = ⟨404, [], .text "Video not found"⟩ ∧
    serve_frame true t (.error ()) = ⟨500, [], .text "Failed to extract frame"⟩ ∧
    serve_frame true t (.ok img) =
      ⟨200, [("Content-Type", "image/jpeg")], .bytes img⟩ :=
  ⟨rfl, rfl, rfl⟩

/-- C10: on a nonempty resource, a suffix header whose count token parses
(or defaults) to `0` — such as `bytes=-0` or an unparsable suffix count —
produces the candidate `(S, S - 1)`, which passes the `end < S` validation
and is served as a 206 with an empty body and header
`Content-Range: bytes S-(S-1)/S`, not as a 416 or an error. -/
theorem serve_video_suffix_zero_206 (data : List Nat) (chunk : Nat)
    (tok : List Char) (hne : data ≠ []) (hW : data.length < W)
    (htok : (parseU64 tok).getD 0 = 0) :
    serve_video (some data) (some (.str ("bytes=".data ++ '-' :: tok))) chunk =
      .ok ⟨206,
        [("Content-Range",
           "bytes " ++ decStr data.length ++ "-" ++ decStr (data.length - 1) ++
             "/" ++ decStr data.length),
         ("Accept-Ranges", "bytes"),
         ("Content-Type", "video/mp4")],
        .bytes []⟩ := by
  have hS1 : 0 < data.length := List.length_pos.mpr hne
  have hp : parseRangePair ("bytes=".data ++ '-' :: tok) data.length chunk =
      .ok (data.length, data.length - 1) := by
    rw [parseRangePair_suffixForm, htok, sub64_eq data.length 0 (by omega) hW,
      sub64_eq data.length 1 (by omega) hW, Nat.sub_zero]
  rw [serve_video_str_parse_ok data _ chunk _ _ hp, if_neg (by omega)]
  have hrs : sub64 (add64 (data.length - 1) 1) data.length = 0 := by
    rw [add64_eq _ 1 (by omega)]
    have h11 : data.length - 1 + 1 = data.length := by omega
    rw [h11, sub64_eq _ _ (Nat.le_refl _) hW, Nat.sub_self]
  rw [hrs, if_pos (by omega)]
  rfl

/-- C10 witness: the theorem at resource `[7]`, `Range: bytes=-0`. -/
theorem serve_video_suffix_zero_206_witness :
    ([7] : List Nat) ≠ [] ∧ ([7] : List Nat).length < W ∧
    (parseU64 "0".data).getD 0 = 0 ∧
    serve_video (some [7]) (some (.str ("bytes=".data ++ '-' :: "0".data))) 65536 =
      .ok ⟨206,
        [("Content-Range", "bytes 1-0/1"), ("Accept-Ranges", "bytes"),
         ("Content-Type", "video/mp4")],
        .bytes []⟩ :=
  ⟨by decide, by decide, rfl,
    serve_video_suffix_zero_206 [7] 65536 "0".data (by decide) (by decide) rfl⟩

end Ninja
